import Mathlib

/-!  Verification of the Monte Carlo ELBO objectives of probtorch
     (`probtorch/objectives/montecarlo.py`).

  Embedding notes.

  * Log-density values are modelled after the reduction of trailing event
    axes: a value is either a bare Python number (`TVal.num`, produced by
    `sum_log_prob` on an empty or fully absent name set), a 0-dimensional
    tensor (`TVal.scalar`), a tensor carrying only a batch axis (`TVal.vec`),
    or a tensor carrying the sample axis at position 0 and the batch axis at
    position 1 (`TVal.tens`).  A tensor without a batch axis behaves exactly
    like one with a singleton batch axis under every operation the module
    uses (sum over axis 0, global mean, softmax over axis 0, broadcasting),
    so the embedding fixes a batch extent `B`; the `batch_dim` argument is
    threaded through as in the source but carries no further information.
  * `E : ℚ → ℚ` abstracts the exponential used by
    `torch.nn.functional.softmax`; every statement holds for an arbitrary
    `E` (positivity is assumed where a claim needs it), and concrete
    instances use a computable positive function.
  * Estimator results live in `Option ℚ`: `none` models a raised Python
    exception (for example calling `.mean()` on a bare number, which has no
    such attribute), `some r` a normal return of the value `r`.
-/

namespace Probtorch

/-- Modelled from the spec (§3, §6 "Trace capability set"): a node of a
trace records its conditioning status and its log-density, already reduced
over trailing event axes to one rational per (sample, batch) index.  The
node class lives in `probtorch/stochastic.py`, which is not under `src/`. -/
structure Node (S B : ℕ) where
  observed : Bool
  logp : Fin S → Fin B → ℚ

/-- Modelled from the spec (§3): a `Trace` is an ordered mapping from
variable names to nodes.  The `Trace` class itself is not under `src/`. -/
structure Trace (S B : ℕ) where
  nodes : List (String × Node S B)

variable {S B : ℕ}

/-- Membership test by name (`n in q` in Python): a name is contained in a
trace when some node is stored under it, regardless of conditioning
status. -/
def Trace.contains (t : Trace S B) (n : String) : Bool :=
  t.nodes.any (fun kv => kv.1 == n)

/-- `Trace.conditioned()`: the names of the observed (conditioned) nodes,
in trace order. -/
def Trace.conditionedNames (t : Trace S B) : List String :=
  (t.nodes.filter (fun kv => kv.2.observed)).map (fun kv => kv.1)

/-- `Trace.sampled()`: the names of the sampled (latent) nodes, in trace
order. -/
def Trace.sampledNames (t : Trace S B) : List String :=
  (t.nodes.filter (fun kv => !kv.2.observed)).map (fun kv => kv.1)

/-- Log-density of the node stored under a name (0 when absent; absent
names are filtered out before this is used). -/
def Trace.logpOf (t : Trace S B) (n : String) (s : Fin S) (b : Fin B) : ℚ :=
  match t.nodes.find? (fun kv => kv.1 == n) with
  | some kv => kv.2.logp s b
  | none => 0

/-- A tensor-or-number value as handled by the module: a bare Python
number, a 0-dimensional tensor, a tensor with only a batch axis, or a
tensor with sample axis 0 and batch axis 1. -/
inductive TVal (S B : ℕ) where
  | num (x : ℚ)
  | scalar (x : ℚ)
  | vec (g : Fin B → ℚ)
  | tens (f : Fin S → Fin B → ℚ)

/-- `isinstance(v, Number)`: only a bare Python number satisfies it; any
tensor (even 0-dimensional) does not. -/
def TVal.isNumber : TVal S B → Bool
  | .num _ => true
  | _ => false

/-- The value of a tensor-or-number at a (sample, batch) index under
broadcasting. -/
def TVal.valAt : TVal S B → Fin S → Fin B → ℚ
  | .num x, _, _ => x
  | .scalar x, _, _ => x
  | .vec g, _, b => g b
  | .tens f, s, b => f s b

/-- `.mean()` with no arguments: the average over every element.  A bare
Python number has no `.mean()` attribute, so that case is the error value
`none`. -/
def TVal.mean : TVal S B → Option ℚ
  | .num _ => none
  | .scalar x => some x
  | .vec g => some ((∑ b, g b) / (B : ℚ))
  | .tens f => some ((∑ s, ∑ b, f s b) / ((S : ℚ) * (B : ℚ)))

/-- Pointwise combination of two tensor-or-number values under the
broadcasting rules torch applies to the shapes occurring here: a number or
0-dimensional tensor broadcasts against anything, a batch vector
broadcasts along the sample axis. -/
def TVal.combine (op : ℚ → ℚ → ℚ) : TVal S B → TVal S B → TVal S B
  | .num a, .num c => .num (op a c)
  | .num a, .scalar c => .scalar (op a c)
  | .num a, .vec g => .vec (fun b => op a (g b))
  | .num a, .tens f => .tens (fun s b => op a (f s b))
  | .scalar a, .num c => .scalar (op a c)
  | .scalar a, .scalar c => .scalar (op a c)
  | .scalar a, .vec g => .vec (fun b => op a (g b))
  | .scalar a, .tens f => .tens (fun s b => op a (f s b))
  | .vec g, .num c => .vec (fun b => op (g b) c)
  | .vec g, .scalar c => .vec (fun b => op (g b) c)
  | .vec g, .vec h => .vec (fun b => op (g b) (h b))
  | .vec g, .tens f => .tens (fun s b => op (g b) (f s b))
  | .tens f, .num c => .tens (fun s b => op (f s b) c)
  | .tens f, .scalar c => .tens (fun s b => op (f s b) c)
  | .tens f, .vec g => .tens (fun s b => op (f s b) (g b))
  | .tens f, .tens h => .tens (fun s b => op (f s b) (h s b))

/-- Elementwise product (`weights * log_prob`), with broadcasting. -/
def TVal.mul (a c : TVal S B) : TVal S B :=
  TVal.combine (fun x y => x * y) a c

/-- Elementwise difference (`log_q - log_p`), with broadcasting. -/
def TVal.sub (a c : TVal S B) : TVal S B :=
  TVal.combine (fun x y => x - y) a c

/-- `.sum(0)`: sum over axis 0 (the sample axis for a sample-by-batch
tensor, the batch axis for a batch vector).  A bare number has no `.sum`
attribute, hence `none`. -/
def TVal.sum0 : TVal S B → Option (TVal S B)
  | .num _ => none
  | .scalar x => some (.scalar x)
  | .vec g => some (.scalar (∑ b, g b))
  | .tens f => some (.vec (fun b => ∑ s, f s b))

/-- The softmax of a sample-by-batch tensor along the sample axis, with
`E` the (abstract) exponential. -/
def softmaxFun (E : ℚ → ℚ) (f : Fin S → Fin B → ℚ) (s : Fin S) (b : Fin B) : ℚ :=
  E (f s b) / ∑ u, E (f u b)

/-- `softmax(v, 0)`: normalization along axis 0.  Undefined (`none`) on a
bare number or a 0-dimensional tensor, neither of which reaches this point
in the module's own call paths. -/
def TVal.softmax0 (E : ℚ → ℚ) : TVal S B → Option (TVal S B)
  | .num _ => none
  | .scalar _ => none
  | .vec g => some (.vec (fun b => E (g b) / ∑ c, E (g c)))
  | .tens f => some (.tens (softmaxFun E f))

/-- Sum of the log-densities of the listed names that are present in the
trace, at one (sample, batch) index. -/
def nodeSum (t : Trace S B) (names : List String) (s : Fin S) (b : Fin B) : ℚ :=
  ((names.filter (fun n => t.contains n)).map (fun n => t.logpOf n s b)).sum

/-- Modelled from the spec (§4.1): `sum_log_prob` from `probtorch/util.py`,
which is not under `src/`.  Sums the log-densities of the listed names over
every axis except the sample axis (when designated) and the batch axis;
names absent from the trace contribute zero, and when nothing contributes
the result is the bare number `0`. -/
def sum_log_prob (t : Trace S B) (sample_dim batch_dim : Option ℕ)
    (names : List String) : TVal S B :=
  if ((names.filter (fun n => t.contains n)).isEmpty) = true then .num 0
  else
    match sample_dim with
    | some _ => .tens (fun s b => nodeSum t names s b)
    | none => .vec (fun b => ∑ s, nodeSum t names s b)

/-- The set `x` of `log_like`: names conditioned in `p` that are not
present in `q` at all (`[n for n in p.conditioned() if n not in q]`). -/
def obsSet (q p : Trace S B) : List String :=
  p.conditionedNames.filter (fun n => !(q.contains n))

/-- `log_like(q, p, sample_dim, batch_dim, log_weights)` from
`montecarlo.py`. -/
def log_like (E : ℚ → ℚ) (q p : Trace S B) (sample_dim batch_dim : Option ℕ)
    (log_weights : Option (TVal S B)) : Option ℚ :=
  let log_prob := sum_log_prob p sample_dim batch_dim (obsSet q p)
  match sample_dim with
  | none => log_prob.mean
  | some _ =>
    let lw := log_weights.getD
      (sum_log_prob q sample_dim batch_dim q.conditionedNames)
    if lw.isNumber then log_prob.mean
    else
      (lw.softmax0 E).bind fun weights =>
        ((weights.mul log_prob).sum0).bind fun u => u.mean

/-- `kl(q, p, sample_dim, batch_dim, log_weights)` from `montecarlo.py`. -/
def kl (E : ℚ → ℚ) (q p : Trace S B) (sample_dim batch_dim : Option ℕ)
    (log_weights : Option (TVal S B)) : Option ℚ :=
  let z := q.sampledNames
  let log_p := sum_log_prob p sample_dim batch_dim z
  let log_q := sum_log_prob q sample_dim batch_dim z
  let log_qp := log_q.sub log_p
  match sample_dim with
  | none => log_qp.mean
  | some _ =>
    let lw := log_weights.getD
      (sum_log_prob q sample_dim batch_dim q.conditionedNames)
    if lw.isNumber then log_qp.mean
    else
      (lw.softmax0 E).bind fun weights =>
        ((weights.mul log_qp).sum0).bind fun u => u.mean

/-- `ml(q, sample_dim, batch_dim)` from `montecarlo.py`: a bare number is
returned unchanged, anything else is averaged with `.mean()`. -/
def ml (q : Trace S B) (sample_dim batch_dim : Option ℕ) : Option ℚ :=
  match sum_log_prob q sample_dim batch_dim q.conditionedNames with
  | .num x => some x
  | v => v.mean

/-- `elbo(q, p, sample_dim, batch_dim, alpha, beta)` from `montecarlo.py`:
the shared log-weight tensor is computed once and passed to both
`log_like` and `kl`. -/
def elbo (E : ℚ → ℚ) (q p : Trace S B) (sample_dim batch_dim : Option ℕ)
    (alpha beta : ℚ) : Option ℚ :=
  let log_weights := sum_log_prob q sample_dim batch_dim q.conditionedNames
  (log_like E q p sample_dim batch_dim (some log_weights)).bind fun ll =>
    (kl E q p sample_dim batch_dim (some log_weights)).bind fun k =>
      (ml q sample_dim batch_dim).bind fun m =>
        some (ll - beta * k + alpha * m)

/-- Modelled from the spec (§4.3, §4.4): the common branch structure both
estimators are described as applying to their base quantity — unweighted
mean when no sample axis is designated; otherwise default the log-weights
to the reduction of `q`'s conditioned-variable log-density, fall back to
the unweighted mean on a bare number, and otherwise take the
softmax-weighted sample-axis sum followed by the mean. -/
def specBranch (E : ℚ → ℚ) (q : Trace S B) (sample_dim batch_dim : Option ℕ)
    (log_weights : Option (TVal S B)) (base : TVal S B) : Option ℚ :=
  match sample_dim with
  | none => base.mean
  | some _ =>
    let lw := log_weights.getD
      (sum_log_prob q sample_dim batch_dim q.conditionedNames)
    if lw.isNumber then base.mean
    else
      (lw.softmax0 E).bind fun weights =>
        ((weights.mul base).sum0).bind fun u => u.mean

/-- The heap visible to an estimator call: the two traces it may read. -/
structure Heap (S B : ℕ) where
  q : Trace S B
  p : Trace S B

/-- Store-passing form of `elbo`.  Every statement of the source reads
`q` or `p` (comprehension over `p.conditioned()`, membership tests,
`sum_log_prob` reductions) and binds only local variables; no statement
assigns into either trace, so the translation returns the heap as
received. -/
def elboH (E : ℚ → ℚ) (h : Heap S B) (sample_dim batch_dim : Option ℕ)
    (alpha beta : ℚ) : Heap S B × Option ℚ :=
  (h, elbo E h.q h.p sample_dim batch_dim alpha beta)

/-- Store-passing form of `log_like`; read-only for the same reason as
`elboH`. -/
def log_likeH (E : ℚ → ℚ) (h : Heap S B) (sample_dim batch_dim : Option ℕ)
    (log_weights : Option (TVal S B)) : Heap S B × Option ℚ :=
  (h, log_like E h.q h.p sample_dim batch_dim log_weights)

/-- Store-passing form of `kl`; read-only for the same reason as
`elboH`. -/
def klH (E : ℚ → ℚ) (h : Heap S B) (sample_dim batch_dim : Option ℕ)
    (log_weights : Option (TVal S B)) : Heap S B × Option ℚ :=
  (h, kl E h.q h.p sample_dim batch_dim log_weights)

/-- Store-passing form of `ml`; read-only for the same reason as
`elboH`. -/
def mlH (h : Heap S B) (sample_dim batch_dim : Option ℕ) :
    Heap S B × Option ℚ :=
  (h, ml h.q sample_dim batch_dim)

/-- A concrete positive stand-in for the exponential, used to evaluate
statements on concrete inputs. -/
def E1 : ℚ → ℚ := fun _ => 1

/-- The empty trace. -/
def emptyTrace (S B : ℕ) : Trace S B := ⟨[]⟩

/-- Scenario encoder trace: one conditioned node `y` with log-density 1,
one sampled node `z` with log-density 2. -/
def qA : Trace 1 1 :=
  ⟨[("y", ⟨true, fun _ _ => 1⟩), ("z", ⟨false, fun _ _ => 2⟩)]⟩

/-- Scenario decoder trace: one conditioned node `x` with log-density 3,
and `z` with log-density -1. -/
def pA : Trace 1 1 :=
  ⟨[("x", ⟨true, fun _ _ => 3⟩), ("z", ⟨false, fun _ _ => (-1)⟩)]⟩


/-- Every name listed by `Trace.conditionedNames` passes the trace's
membership test. -/
theorem Trace.contains_of_mem_conditioned {t : Trace S B} {n : String}
    (hn : n ∈ t.conditionedNames) : t.contains n = true := by
  rcases List.mem_map.mp hn with ⟨kv, hkv, rfl⟩
  have hmem : kv ∈ t.nodes := (List.mem_filter.mp hkv).1
  simp only [Trace.contains, List.any_eq_true]
  exact ⟨kv, hmem, by simp⟩

/-- Every name listed by `Trace.sampledNames` passes the trace's membership
test. -/
theorem Trace.contains_of_mem_sampled {t : Trace S B} {n : String}
    (hn : n ∈ t.sampledNames) : t.contains n = true := by
  rcases List.mem_map.mp hn with ⟨kv, hkv, rfl⟩
  have hmem : kv ∈ t.nodes := (List.mem_filter.mp hkv).1
  simp only [Trace.contains, List.any_eq_true]
  exact ⟨kv, hmem, by simp⟩

/-- The conditioned names of a trace are all present in it. -/
theorem filter_contains_conditionedNames (t : Trace S B) :
    t.conditionedNames.filter (fun n => t.contains n) = t.conditionedNames :=
  List.filter_eq_self.mpr fun _ ha => Trace.contains_of_mem_conditioned ha

/-- The sampled names of a trace are all present in it. -/
theorem filter_contains_sampledNames (t : Trace S B) :
    t.sampledNames.filter (fun n => t.contains n) = t.sampledNames :=
  List.filter_eq_self.mpr fun _ ha => Trace.contains_of_mem_sampled ha

/-- The names of `obsSet q p` are all present in `p` (they are conditioned
names of `p`). -/
theorem filter_contains_obsSet (q p : Trace S B) :
    (obsSet q p).filter (fun n => p.contains n) = obsSet q p :=
  List.filter_eq_self.mpr fun _ ha =>
    Trace.contains_of_mem_conditioned (List.mem_of_mem_filter ha)

/-- When some listed name is present, the reduction is a genuine tensor and
its mean is defined. -/
theorem sum_log_prob_mean_isSome (t : Trace S B) (sd bd : Option ℕ)
    (names : List String)
    (h : (names.filter (fun n => t.contains n)).isEmpty = false) :
    ∃ r, (sum_log_prob t sd bd names).mean = some r := by
  cases sd <;> simp [sum_log_prob, h, TVal.mean]

/-- When `q` has a sampled name, `log_q - log_p` is a genuine tensor and
its mean is defined, whatever shape `log_p` reduces to. -/
theorem klqp_mean_isSome (q p : Trace S B) (sd bd : Option ℕ)
    (h : q.sampledNames ≠ []) :
    ∃ r, ((sum_log_prob q sd bd q.sampledNames).sub
      (sum_log_prob p sd bd q.sampledNames)).mean = some r := by
  have hq : (q.sampledNames.filter (fun n => q.contains n)).isEmpty = false := by
    rw [filter_contains_sampledNames]; simp [h]
  by_cases hp : ((q.sampledNames.filter (fun n => p.contains n)).isEmpty) = true <;>
    cases sd <;>
      simp [sum_log_prob, hq, hp, TVal.sub, TVal.combine, TVal.mean]

/-- C3: `kl` reduces `p`'s and `q`'s log-densities over the same set `z` of
all sampled names of `q`, forms `log_qp = log_q - log_p`, and applies to it
exactly the branch structure described for `log_like` (unweighted mean when
the sample axis is unset or the weights are a bare number; softmax-weighted
sample-axis sum followed by the mean otherwise), with `q`'s
conditioned-variable log-density as the default log-weight source; and
`log_like` applies that same structure to its own reduction. -/
theorem kl_mirrors_log_like_branches (E : ℚ → ℚ) (q p : Trace S B)
    (sd bd : Option ℕ) (lw : Option (TVal S B)) :
    kl E q p sd bd lw =
      specBranch E q sd bd lw ((sum_log_prob q sd bd q.sampledNames).sub
        (sum_log_prob p sd bd q.sampledNames)) ∧
    log_like E q p sd bd lw =
      specBranch E q sd bd lw (sum_log_prob p sd bd (obsSet q p)) := by
  cases sd <;> exact ⟨rfl, rfl⟩

/-- C5: with `sample_dim` unset, `log_like` and `kl` return the plain mean
of the underlying reduction, and the result does not depend on the
`log_weights` argument. -/
theorem degenerate_no_sample_dim (E : ℚ → ℚ) (q p : Trace S B)
    (bd : Option ℕ) (lw lw' : Option (TVal S B)) :
    log_like E q p none bd lw = (sum_log_prob p none bd (obsSet q p)).mean ∧
    kl E q p none bd lw = ((sum_log_prob q none bd q.sampledNames).sub
      (sum_log_prob p none bd q.sampledNames)).mean ∧
    log_like E q p none bd lw = log_like E q p none bd lw' ∧
    kl E q p none bd lw = kl E q p none bd lw' :=
  ⟨rfl, rfl, rfl, rfl⟩

/-- C6: passing the precomputed reduction of `q`'s conditioned-variable
log-density as `log_weights` gives the same result as letting `log_like`
and `kl` compute it themselves. -/
theorem shared_weight_consistency (E : ℚ → ℚ) (q p : Trace S B)
    (sd bd : Option ℕ) :
    log_like E q p sd bd
        (some (sum_log_prob q sd bd q.conditionedNames)) =
      log_like E q p sd bd none ∧
    kl E q p sd bd (some (sum_log_prob q sd bd q.conditionedNames)) =
      kl E q p sd bd none := by
  cases sd <;> exact ⟨rfl, rfl⟩

/-- C10: the store-passing forms of the four estimators return the heap of
traces exactly as received: no call writes into `q` or `p`, and each result
is a freshly computed value. -/
theorem estimators_leave_traces_unchanged (E : ℚ → ℚ) (h : Heap S B)
    (sd bd : Option ℕ) (alpha beta : ℚ) (lw : Option (TVal S B)) :
    (elboH E h sd bd alpha beta).1 = h ∧
    (log_likeH E h sd bd lw).1 = h ∧
    (klH E h sd bd lw).1 = h ∧
    (mlH h sd bd).1 = h ∧
    (elboH E h sd bd alpha beta).2 = elbo E h.q h.p sd bd alpha beta ∧
    (log_likeH E h sd bd lw).2 = log_like E h.q h.p sd bd lw ∧
    (klH E h sd bd lw).2 = kl E h.q h.p sd bd lw ∧
    (mlH h sd bd).2 = ml h.q sd bd :=
  ⟨rfl, rfl, rfl, rfl, rfl, rfl, rfl, rfl⟩

/-- C8: the softmax-normalized importance weights used by `log_like` and
`kl` are nonnegative and sum to one across the sample axis, at every batch
index, for any log-weight tensor with a real sample axis. -/
theorem softmax_weights_normalized (E : ℚ → ℚ) (hE : ∀ x, 0 < E x)
    (hS : 0 < S) (f : Fin S → Fin B → ℚ) :
    (TVal.tens f).softmax0 E = some (TVal.tens (softmaxFun E f)) ∧
    (∀ s b, 0 ≤ softmaxFun E f s b) ∧
    (∀ b, ∑ s, softmaxFun E f s b = 1) := by
  refine ⟨rfl, fun s b => ?_, fun b => ?_⟩
  · exact div_nonneg (le_of_lt (hE _))
      (Finset.sum_nonneg fun u _ => le_of_lt (hE _))
  · have hne : (Finset.univ : Finset (Fin S)).Nonempty := by
      have : Nonempty (Fin S) := ⟨⟨0, hS⟩⟩
      exact Finset.univ_nonempty
    have hpos : 0 < ∑ u, E (f u b) :=
      Finset.sum_pos (fun u _ => hE _) hne
    unfold softmaxFun
    rw [← Finset.sum_div, div_self (ne_of_gt hpos)]

theorem softmax_weights_normalized_witness :
    ∑ s, softmaxFun E1 (fun (_ : Fin 2) (_ : Fin 1) => (0 : ℚ)) s 0 = 1 :=
  (softmax_weights_normalized E1 (fun _ => one_pos) (by decide)
    (fun _ _ => 0)).2.2 0

/-- C9: on the unweighted path (`sample_dim` unset), an empty relevant name
set makes the reduction a bare Python number, and the subsequent `.mean()`
call fails rather than returning zero — for `log_like` when `x` is empty
and for `kl` when `q` has no sampled names; only `ml` guards the
bare-number case and returns the number unchanged. -/
theorem empty_set_unweighted_failure (E : ℚ → ℚ) (q p : Trace S B)
    (bd : Option ℕ) (lw : Option (TVal S B)) :
    (obsSet q p = [] → log_like E q p none bd lw = none) ∧
    (q.sampledNames = [] → kl E q p none bd lw = none) ∧
    (q.conditionedNames = [] → ml q none bd = some 0) := by
  refine ⟨fun hx => ?_, fun hz => ?_, fun hy => ?_⟩
  · simp [log_like, sum_log_prob, hx, TVal.mean]
  · simp [kl, sum_log_prob, hz, TVal.sub, TVal.combine, TVal.mean]
  · simp [ml, sum_log_prob, hy]

theorem empty_set_unweighted_failure_witness :
    log_like E1 (emptyTrace 1 1) (emptyTrace 1 1) none none none = none ∧
    kl E1 (emptyTrace 1 1) (emptyTrace 1 1) none none none = none ∧
    ml (emptyTrace 1 1) none none = some 0 :=
  ⟨(empty_set_unweighted_failure E1 (emptyTrace 1 1) (emptyTrace 1 1)
      none none).1 rfl,
   (empty_set_unweighted_failure E1 (emptyTrace 1 1) (emptyTrace 1 1)
      none none).2.1 rfl,
   (empty_set_unweighted_failure E1 (emptyTrace 1 1) (emptyTrace 1 1)
      none none).2.2 rfl⟩

/-- The reduction with a designated sample axis is either the bare number 0
or the sample-by-batch tensor of per-name sums. -/
theorem sum_log_prob_some_cases (t : Trace S B) (k : ℕ) (bd : Option ℕ)
    (names : List String) :
    sum_log_prob t (some k) bd names = TVal.num 0 ∨
    sum_log_prob t (some k) bd names =
      TVal.tens (fun s b => nodeSum t names s b) := by
  by_cases h : ((names.filter (fun n => t.contains n)).isEmpty) = true
  · exact Or.inl (by simp [sum_log_prob, h])
  · exact Or.inr (by simp [sum_log_prob, h])

/-- C2: with a designated sample axis and tensor-valued log-weights,
`log_like` reduces `p`'s log-density over the names conditioned in `p` but
not present in `q` (membership by name), softmax-normalizes the log-weights
along the sample axis, and returns the batch mean of the sample-axis sum of
`weights * log_prob`. -/
theorem log_like_weighted_formula (E : ℚ → ℚ) (q p : Trace S B) (k : ℕ)
    (bd : Option ℕ) (f : Fin S → Fin B → ℚ) :
    log_like E q p (some k) bd (some (TVal.tens f)) =
      some ((∑ b, ∑ s, softmaxFun E f s b *
        (sum_log_prob p (some k) bd
          (p.conditionedNames.filter (fun n => !(q.contains n)))).valAt s b) /
        (B : ℚ)) := by
  have hx : p.conditionedNames.filter (fun n => !(q.contains n)) = obsSet q p := rfl
  rw [hx]
  rcases sum_log_prob_some_cases p k bd (obsSet q p) with h | h <;>
    simp [log_like, h, TVal.isNumber, TVal.softmax0, TVal.mul, TVal.combine,
      TVal.sum0, TVal.mean, TVal.valAt]

/-- C1: `elbo` computes the shared log-weight reduction once, passes it to
both `log_like` and `kl`, and returns
`log_like - beta * kl + alpha * ml`. -/
theorem elbo_shared_weight_decomposition (E : ℚ → ℚ) (q p : Trace S B)
    (sd bd : Option ℕ) (alpha beta ll k m : ℚ)
    (hll : log_like E q p sd bd
      (some (sum_log_prob q sd bd q.conditionedNames)) = some ll)
    (hkl : kl E q p sd bd
      (some (sum_log_prob q sd bd q.conditionedNames)) = some k)
    (hml : ml q sd bd = some m) :
    elbo E q p sd bd alpha beta = some (ll - beta * k + alpha * m) := by
  have hstep : elbo E q p sd bd alpha beta =
      (log_like E q p sd bd
        (some (sum_log_prob q sd bd q.conditionedNames))).bind fun a =>
      (kl E q p sd bd
        (some (sum_log_prob q sd bd q.conditionedNames))).bind fun c =>
      (ml q sd bd).bind fun d => some (a - beta * c + alpha * d) := rfl
  rw [hstep, hll, hkl, hml]
  rfl

theorem elbo_shared_weight_decomposition_witness :
    elbo E1 qA pA (some 0) (some 1) (1/10) 1 = some (3 - 1 * 3 + (1/10) * 1) :=
  elbo_shared_weight_decomposition E1 qA pA (some 0) (some 1) (1/10) 1 3 3 1
    (by simp [log_like, obsSet, sum_log_prob, nodeSum, qA, pA,
      Trace.conditionedNames, Trace.contains, Trace.logpOf, TVal.mean,
      TVal.mul, TVal.combine, TVal.sum0, TVal.softmax0, softmaxFun,
      TVal.isNumber, E1])
    (by simp [kl, sum_log_prob, nodeSum, qA, pA, Trace.sampledNames,
      Trace.conditionedNames, Trace.contains, Trace.logpOf, TVal.mean,
      TVal.mul, TVal.sub, TVal.combine, TVal.sum0, TVal.softmax0, softmaxFun,
      TVal.isNumber, E1] <;> norm_num)
    (by simp [ml, sum_log_prob, nodeSum, qA, Trace.conditionedNames,
      Trace.contains, Trace.logpOf, TVal.mean])

/-- C4: `ml` returns the mean of the reduction of `q`'s conditioned-variable
log-density — the same quantity used as the log-weight tensor elsewhere —
and when that reduction is the bare number 0 (no conditioned names), it is
returned unchanged with no averaging. -/
theorem ml_mean_of_conditioned_reduction (q : Trace S B) (k : ℕ)
    (bd : Option ℕ) :
    (q.conditionedNames = [] →
        sum_log_prob q (some k) bd q.conditionedNames = TVal.num 0 ∧
        ml q (some k) bd = some 0 ∧ ml q none bd = some 0) ∧
    (q.conditionedNames ≠ [] →
        ml q (some k) bd =
          some ((∑ s, ∑ b, nodeSum q q.conditionedNames s b) /
            ((S : ℚ) * (B : ℚ))) ∧
        ml q none bd =
          some ((∑ b, ∑ s, nodeSum q q.conditionedNames s b) / (B : ℚ))) := by
  constructor
  · intro h
    refine ⟨by simp [sum_log_prob, h], by simp [ml, sum_log_prob, h],
      by simp [ml, sum_log_prob, h]⟩
  · intro h
    have hne : (q.conditionedNames.filter
        (fun n => q.contains n)).isEmpty = false := by
      rw [filter_contains_conditionedNames]; simp [h]
    exact ⟨by simp [ml, sum_log_prob, hne, TVal.mean],
      by simp [ml, sum_log_prob, hne, TVal.mean]⟩

theorem ml_mean_of_conditioned_reduction_witness :
    ml qA (some 0) (some 1) =
      some ((∑ s, ∑ b, nodeSum qA qA.conditionedNames s b) /
        (((1 : ℕ) : ℚ) * ((1 : ℕ) : ℚ))) :=
  ((ml_mean_of_conditioned_reduction qA 0 (some 1)).2 (by decide)).1

/-- C7 as stated is false: on the input below, `sample_dim` is set and the
computed log-weights are the bare number 0 (no conditioned names in `q`),
so the fallback path is taken — but `x` is empty too, the fallback applies
`.mean()` to the bare number 0, and the call raises instead of returning
normally (`none` in the embedding). -/
theorem degenerate_weights_error_counterexample :
    log_like E1 (emptyTrace 1 1) (emptyTrace 1 1) (some 0) none none = none :=
  rfl

/-- C7 amended: whenever `sample_dim` is unset or the (computed or
supplied) log-weights are a bare number, `log_like` and `kl` silently take
the unweighted-averaging fallback path; the call returns normally provided
the corresponding reduction is tensor-valued (nonempty relevant name set);
when that reduction is itself a bare number the fallback's `.mean()` call
fails. -/
theorem degenerate_weights_fallback (E : ℚ → ℚ) (q p : Trace S B)
    (sd bd : Option ℕ) (lw : Option (TVal S B))
    (hdeg : sd = none ∨
      (lw.getD (sum_log_prob q sd bd q.conditionedNames)).isNumber = true) :
    log_like E q p sd bd lw = (sum_log_prob p sd bd (obsSet q p)).mean ∧
    kl E q p sd bd lw = ((sum_log_prob q sd bd q.sampledNames).sub
      (sum_log_prob p sd bd q.sampledNames)).mean ∧
    (obsSet q p ≠ [] → ∃ r, log_like E q p sd bd lw = some r) ∧
    (q.sampledNames ≠ [] → ∃ r, kl E q p sd bd lw = some r) := by
  have hbase : log_like E q p sd bd lw =
      (sum_log_prob p sd bd (obsSet q p)).mean ∧
      kl E q p sd bd lw = ((sum_log_prob q sd bd q.sampledNames).sub
        (sum_log_prob p sd bd q.sampledNames)).mean := by
    cases sd with
    | none => exact ⟨rfl, rfl⟩
    | some k =>
      rcases hdeg with h | h
      · exact absurd h (by simp)
      · constructor
        · simp [log_like, h]
        · simp [kl, h]
  refine ⟨hbase.1, hbase.2, fun hx => ?_, fun hz => ?_⟩
  · rw [hbase.1]
    apply sum_log_prob_mean_isSome
    rw [filter_contains_obsSet]
    simp [hx]
  · rw [hbase.2]
    exact klqp_mean_isSome q p sd bd hz

theorem degenerate_weights_fallback_witness :
    ∃ r, log_like E1 qA pA (some 0) (some 1) (some (TVal.num 5)) = some r :=
  (degenerate_weights_fallback E1 qA pA (some 0) (some 1)
    (some (TVal.num 5)) (Or.inr rfl)).2.2.1 (by decide)
end Probtorch
